import Mathlib

/-!
Verification of the conversation buffering and batched-upload pipeline of the
`astrbot_plugin_memos_integrator` plugin (`src/main.py`, `src/memory_manager.py`).

The Durable Turn Store (`message_cache` SQLite table) is modelled as a list of
rows in insertion order; SQL queries over it (`MAX`, `COUNT`, `DELETE`,
`SELECT ... ORDER BY message_id`) are modelled as list functions computing the
same values.  The per-event handler `save_memories` is modelled as a pure step
function on the store returning the optional batch handed to the upload task.
Fault-injected variants model the `try/except` blocks of the database helpers,
and an event-trace variant records the order of database and gateway effects.
-/

/-- One row of the `message_cache` table (`src/main.py`, `_init_db`). -/
structure Row where
  conversation_id : String
  message_id : Nat
  role : String
  content : String
deriving Repr, DecidableEq

/-- The Durable Turn Store: the `message_cache` table as a list of rows in
insertion order. -/
abbrev Store := List Row

/-- A message handed to the gateway: `(role, content)`. -/
abbrev Msg := String × String

/-- The rows selected by `WHERE conversation_id = ?`. -/
def rowsFor (db : Store) (conversation_id : String) : Store :=
  db.filter (fun r => r.conversation_id == conversation_id)

/-- SQL `MAX(message_id)` over a list of rows: `none` on an empty selection. -/
def maxOfIds : Store → Option Nat
  | [] => none
  | r :: rs =>
    match maxOfIds rs with
    | none => some r.message_id
    | some m => some (Nat.max r.message_id m)

/-- Model of `_save_message_to_db` (`src/main.py` lines 266-286): select
`MAX(message_id)` for the conversation, use `max + 1` (or `0` when the
selection is empty) as the new id, insert the row and commit. -/
def save_message_to_db (db : Store) (conversation_id role content : String) : Store :=
  let max_id := maxOfIds (rowsFor db conversation_id)
  let next_id := match max_id with
    | some m => m + 1
    | none => 0
  db ++ [⟨conversation_id, next_id, role, content⟩]

/-- Model of `_clear_conversation_cache` (`src/main.py` lines 288-297):
`DELETE FROM message_cache WHERE conversation_id = ?`. -/
def clear_conversation_cache (db : Store) (conversation_id : String) : Store :=
  db.filter (fun r => !(r.conversation_id == conversation_id))

/-- Model of `_get_conversation_message_count` (`src/main.py` lines 299-309):
`SELECT COUNT(*) ... WHERE conversation_id = ?`. -/
def get_conversation_message_count (db : Store) (conversation_id : String) : Nat :=
  (rowsFor db conversation_id).length

/-- Insertion into a list sorted by `message_id` (helper for modelling
`ORDER BY message_id`). -/
def insertById (r : Row) : Store → Store
  | [] => [r]
  | x :: xs => if r.message_id ≤ x.message_id then r :: x :: xs else x :: insertById r xs

/-- Sorting by `message_id` ascending, modelling SQL `ORDER BY message_id`. -/
def sortById : Store → Store
  | [] => []
  | x :: xs => insertById x (sortById xs)

/-- The flush-time read (`src/main.py` lines 541-543):
`SELECT role, content FROM message_cache WHERE conversation_id = ?
ORDER BY message_id`. -/
def load_conversation_messages (db : Store) (conversation_id : String) : List Msg :=
  (sortById (rowsFor db conversation_id)).map (fun r => (r.role, r.content))

/-- One `save_memories` event (`src/main.py` lines 491-578) for a completed
round, after the user message and assistant response have been resolved
(empty string stands for a missing side).  Returns the new store and the
batch submitted to the upload task, if any.  `t` is `upload_interval`. -/
def save_memories (t : Nat) (db : Store) (conversation_id u a : String) :
    Store × Option (List Msg) :=
  if u = "" then (db, none)
  else if a = "" then (db, none)
  else if t = 1 then
    (db, some [("user", u), ("assistant", a)])
  else
    let db1 := save_message_to_db db conversation_id "user" u
    let db2 := save_message_to_db db1 conversation_id "assistant" a
    let message_count := get_conversation_message_count db2 conversation_id
    let current_rounds := message_count / 2
    if t ≤ current_rounds then
      let batch := load_conversation_messages db2 conversation_id
      let db3 := clear_conversation_cache db2 conversation_id
      (db3, some batch)
    else
      (db2, none)

/-- The general (store-backed) path of `save_memories` (`src/main.py` lines
527-551), taken for any threshold: used to compare the threshold-1 fast path
against the general path run with threshold 1. -/
def save_memories_general (t : Nat) (db : Store) (conversation_id u a : String) :
    Store × Option (List Msg) :=
  if u = "" then (db, none)
  else if a = "" then (db, none)
  else
    let db1 := save_message_to_db db conversation_id "user" u
    let db2 := save_message_to_db db1 conversation_id "assistant" a
    let message_count := get_conversation_message_count db2 conversation_id
    let current_rounds := message_count / 2
    if t ≤ current_rounds then
      let batch := load_conversation_messages db2 conversation_id
      let db3 := clear_conversation_cache db2 conversation_id
      (db3, some batch)
    else
      (db2, none)

/-- A round: the user message and the paired assistant response. -/
abbrev Round := String × String

/-- The two turns of a round, in role order, as uploaded. -/
def roundMsgs (r : Round) : List Msg := [("user", r.1), ("assistant", r.2)]

/-- The turns of a round sequence, flattened in append order. -/
def flatRounds (rs : List Round) : List Msg := (rs.map roundMsgs).flatten

/-- Processing a sequence of completed rounds for one conversation, in order:
iterates `save_memories` and collects the uploaded batches in order. -/
def processRounds (t : Nat) (conversation_id : String) : Store → List Round → Store × List (List Msg)
  | db, [] => (db, [])
  | db, r :: rs =>
    let s := save_memories t db conversation_id r.1 r.2
    let rest := processRounds t conversation_id s.1 rs
    (rest.1, s.2.toList ++ rest.2)

/-- Iterated `_save_message_to_db` appends of role/content pairs. -/
def appendTurns (db : Store) (conversation_id : String) : List Msg → Store
  | [] => db
  | (role, content) :: ts => appendTurns (save_message_to_db db conversation_id role content) conversation_id ts

/-- The store rows the buffer of a conversation holds after appending the turns
`ts` into an empty buffer, starting sequence numbers at `s`. -/
def mkBufferFrom (conversation_id : String) : Nat → List Msg → Store
  | _, [] => []
  | s, (role, content) :: ts => ⟨conversation_id, s, role, content⟩ :: mkBufferFrom conversation_id (s + 1) ts

/-- The store rows of a freshly-filled buffer: sequence numbers `0, 1, ...`. -/
def mkBuffer (conversation_id : String) (ts : List Msg) : Store :=
  mkBufferFrom conversation_id 0 ts

/-- Abstract round-buffering model: the buffer as a list of pending rounds;
each new round is appended and the whole buffer is flushed as one batch as
soon as it holds at least `t` rounds.  Returns the final buffer and the
batches in order. -/
def runModel (t : Nat) : List Round → List Round → List Round × List (List Round)
  | b, [] => (b, [])
  | b, r :: rs =>
    let b2 := b ++ [r]
    if t ≤ b2.length then
      let rest := runModel t [] rs
      (rest.1, b2 :: rest.2)
    else
      runModel t b2 rs

/-- A database helper body that can fail, modelling the `try` block: on
failure the raised exception is represented by `Except.error`. -/
def save_message_to_db_raw (fail : Bool) (db : Store) (conversation_id role content : String) :
    Except String Store :=
  if fail then Except.error "database error"
  else Except.ok (save_message_to_db db conversation_id role content)

/-- Model of `_save_message_to_db` with its `except` clause: a failure is logged, the
transaction is rolled back (the committed store is unchanged) and the call
returns without raising. -/
def save_message_to_db_f (fail : Bool) (db : Store) (conversation_id role content : String) : Store :=
  match save_message_to_db_raw fail db conversation_id role content with
  | Except.ok db2 => db2
  | Except.error _ => db

/-- The count query body that can fail, modelling the `try` block. -/
def get_conversation_message_count_raw (fail : Bool) (db : Store) (conversation_id : String) :
    Except String Nat :=
  if fail then Except.error "database error"
  else Except.ok (get_conversation_message_count db conversation_id)

/-- Model of `_get_conversation_message_count` with its `except` clause: a failure is
logged and the call returns `0` without raising. -/
def get_conversation_message_count_f (fail : Bool) (db : Store) (conversation_id : String) : Nat :=
  match get_conversation_message_count_raw fail db conversation_id with
  | Except.ok n => n
  | Except.error _ => 0

/-- The delete body that can fail, modelling the `try` block. -/
def clear_conversation_cache_raw (fail : Bool) (db : Store) (conversation_id : String) :
    Except String Store :=
  if fail then Except.error "database error"
  else Except.ok (clear_conversation_cache db conversation_id)

/-- Model of `_clear_conversation_cache` with its `except` clause: a failure is logged,
the transaction is rolled back and the call returns without raising. -/
def clear_conversation_cache_f (fail : Bool) (db : Store) (conversation_id : String) : Store :=
  match clear_conversation_cache_raw fail db conversation_id with
  | Except.ok db2 => db2
  | Except.error _ => db

/-- Variant of `save_memories` with fault injection on the user-turn append, the
assistant-turn append and the count query, in the statement order of the code. -/
def save_memories_f (fU fA fC : Bool) (t : Nat) (db : Store) (conversation_id u a : String) :
    Store × Option (List Msg) :=
  if u = "" then (db, none)
  else if a = "" then (db, none)
  else if t = 1 then
    (db, some [("user", u), ("assistant", a)])
  else
    let db1 := save_message_to_db_f fU db conversation_id "user" u
    let db2 := save_message_to_db_f fA db1 conversation_id "assistant" a
    let message_count := get_conversation_message_count_f fC db2 conversation_id
    let current_rounds := message_count / 2
    if t ≤ current_rounds then
      let batch := load_conversation_messages db2 conversation_id
      let db3 := clear_conversation_cache db2 conversation_id
      (db3, some batch)
    else
      (db2, none)

/-- Observable effects of one `save_memories` event, in the order the code
performs them.  `gatewayAdd batch g` is the `add_message` call made by the
spawned upload task, with gateway outcome `g`; the task only logs the outcome
and touches no store state. -/
inductive Ev where
  | dbAppend (conversation_id role content : String)
  | dbClear (conversation_id : String)
  | gatewayAdd (batch : List Msg) (success : Bool)
deriving Repr, DecidableEq

/-- Variant of `save_memories` instrumented with the effect trace, in the order the
statements execute: appends, then (on flush) the store clear, then the
gateway call of the dispatched upload task. -/
def save_memories_ev (t : Nat) (db : Store) (conversation_id u a : String) (g : Bool) :
    Store × List Ev :=
  if u = "" then (db, [])
  else if a = "" then (db, [])
  else if t = 1 then
    (db, [Ev.gatewayAdd [("user", u), ("assistant", a)] g])
  else
    let db1 := save_message_to_db db conversation_id "user" u
    let db2 := save_message_to_db db1 conversation_id "assistant" a
    let message_count := get_conversation_message_count db2 conversation_id
    if t ≤ message_count / 2 then
      let batch := load_conversation_messages db2 conversation_id
      let db3 := clear_conversation_cache db2 conversation_id
      (db3, [Ev.dbAppend conversation_id "user" u, Ev.dbAppend conversation_id "assistant" a,
             Ev.dbClear conversation_id, Ev.gatewayAdd batch g])
    else
      (db2, [Ev.dbAppend conversation_id "user" u, Ev.dbAppend conversation_id "assistant" a])

/-! Helper lemmas about the store operations on buffer-shaped states -/

theorem rowsFor_append (db1 db2 : Store) (conv : String) :
    rowsFor (db1 ++ db2) conv = rowsFor db1 conv ++ rowsFor db2 conv :=
  List.filter_append _ _

theorem length_mkBufferFrom (conv : String) (s : Nat) (ts : List Msg) :
    (mkBufferFrom conv s ts).length = ts.length := by
  induction ts generalizing s with
  | nil => rfl
  | cons p ts ih =>
    obtain ⟨r, c⟩ := p
    simp [mkBufferFrom, ih (s + 1)]

theorem mkBufferFrom_append (conv : String) (s : Nat) (ts us : List Msg) :
    mkBufferFrom conv s (ts ++ us) =
      mkBufferFrom conv s ts ++ mkBufferFrom conv (s + ts.length) us := by
  induction ts generalizing s with
  | nil => simp [mkBufferFrom]
  | cons p ts ih =>
    obtain ⟨r, c⟩ := p
    have harith : s + 1 + ts.length = s + (ts.length + 1) := by omega
    simp [mkBufferFrom, ih (s + 1), harith]

theorem rowsFor_mkBufferFrom (conv : String) (s : Nat) (ts : List Msg) :
    rowsFor (mkBufferFrom conv s ts) conv = mkBufferFrom conv s ts := by
  induction ts generalizing s with
  | nil => rfl
  | cons p ts ih =>
    obtain ⟨r, c⟩ := p
    simp only [rowsFor] at ih ⊢
    simp [mkBufferFrom, List.filter_cons, ih (s + 1)]

theorem filterNe_mkBufferFrom (conv : String) (s : Nat) (ts : List Msg) :
    (mkBufferFrom conv s ts).filter (fun r => !(r.conversation_id == conv)) = [] := by
  induction ts generalizing s with
  | nil => rfl
  | cons p ts ih =>
    obtain ⟨r, c⟩ := p
    simp [mkBufferFrom, List.filter_cons, ih (s + 1)]

theorem clear_eq_self_of_rowsFor_nil (db : Store) (conv : String)
    (h : rowsFor db conv = []) : clear_conversation_cache db conv = db := by
  rw [rowsFor, List.filter_eq_nil_iff] at h
  rw [clear_conversation_cache, List.filter_eq_self]
  intro r hr
  simpa using h r hr

theorem maxOfIds_eq_none (l : Store) : maxOfIds l = none ↔ l = [] := by
  cases l with
  | nil => simp [maxOfIds]
  | cons r rs =>
    cases h : maxOfIds rs <;> simp [maxOfIds, h]

theorem maxOfIds_eq_some (l : Store) (m : Nat) (h : maxOfIds l = some m) :
    (∃ r ∈ l, r.message_id = m) ∧ ∀ r ∈ l, r.message_id ≤ m := by
  induction l generalizing m with
  | nil => simp [maxOfIds] at h
  | cons r rs ih =>
    cases hr : maxOfIds rs with
    | none =>
      have hnil : rs = [] := (maxOfIds_eq_none rs).mp hr
      subst hnil
      simp [maxOfIds] at h
      subst h
      simp
    | some m2 =>
      simp only [maxOfIds, hr] at h
      obtain ⟨⟨r2, hr2, hid⟩, hall⟩ := ih m2 hr
      have hm : Nat.max r.message_id m2 = m := by injection h
      have hkey : r.message_id ≤ m ∧ m2 ≤ m ∧ (m = r.message_id ∨ m = m2) := by
        have hd : Nat.max r.message_id m2 = r.message_id ⊔ m2 := rfl
        rw [hd, Nat.max_def] at hm
        split at hm <;> omega
      obtain ⟨hk1, hk2, hk3⟩ := hkey
      constructor
      · rcases hk3 with hk | hk
        · exact ⟨r, by simp, hk.symm⟩
        · exact ⟨r2, by simp [hr2], by omega⟩
      · intro x hx
        rcases List.mem_cons.mp hx with hx | hx
        · subst hx
          exact hk1
        · exact Nat.le_trans (hall x hx) hk2

theorem maxOfIds_cons_some (r : Row) (l : Store) (m : Nat) (h : maxOfIds l = some m) :
    maxOfIds (r :: l) = some (Nat.max r.message_id m) := by
  simp only [maxOfIds, h]

theorem maxOfIds_mkBufferFrom_cons (conv : String) (s : Nat) (p : Msg) (ts : List Msg) :
    maxOfIds (mkBufferFrom conv s (p :: ts)) = some (s + ts.length) := by
  induction ts generalizing s p with
  | nil =>
    obtain ⟨r, c⟩ := p
    rfl
  | cons q ts ih =>
    obtain ⟨r, c⟩ := p
    have hih := ih (s + 1) q
    have hcons : mkBufferFrom conv s ((r, c) :: q :: ts) =
        ⟨conv, s, r, c⟩ :: mkBufferFrom conv (s + 1) (q :: ts) := rfl
    rw [hcons, maxOfIds_cons_some _ _ _ hih]
    show some (Nat.max s (s + 1 + ts.length)) = some (s + (q :: ts).length)
    have hd : Nat.max s (s + 1 + ts.length) = s ⊔ (s + 1 + ts.length) := rfl
    rw [hd, Nat.max_def, if_pos (by omega)]
    simp only [Option.some.injEq, List.length_cons]
    omega

theorem mem_mkBufferFrom_id (conv : String) (s : Nat) (ts : List Msg) (x : Row)
    (hx : x ∈ mkBufferFrom conv s ts) : s ≤ x.message_id := by
  induction ts generalizing s with
  | nil => simp [mkBufferFrom] at hx
  | cons p ts ih =>
    obtain ⟨r, c⟩ := p
    simp only [mkBufferFrom, List.mem_cons] at hx
    rcases hx with h | h
    · subst h; simp
    · exact Nat.le_of_succ_le (ih (s + 1) h)

theorem insertById_of_le (r : Row) (l : Store)
    (h : ∀ x ∈ l, r.message_id ≤ x.message_id) : insertById r l = r :: l := by
  cases l with
  | nil => rfl
  | cons x xs => simp [insertById, h x (by simp)]

theorem sortById_mkBufferFrom (conv : String) (s : Nat) (ts : List Msg) :
    sortById (mkBufferFrom conv s ts) = mkBufferFrom conv s ts := by
  induction ts generalizing s with
  | nil => rfl
  | cons p ts ih =>
    obtain ⟨r, c⟩ := p
    simp only [mkBufferFrom, sortById, ih (s + 1)]
    exact insertById_of_le _ _
      (fun x hx => Nat.le_of_succ_le (mem_mkBufferFrom_id conv (s + 1) ts x hx))

theorem map_mkBufferFrom (conv : String) (s : Nat) (ts : List Msg) :
    (mkBufferFrom conv s ts).map (fun r => (r.role, r.content)) = ts := by
  induction ts generalizing s with
  | nil => rfl
  | cons p ts ih =>
    obtain ⟨r, c⟩ := p
    simp [mkBufferFrom, ih (s + 1)]

theorem map_id_mkBufferFrom (conv : String) (s : Nat) (ts : List Msg) :
    (mkBufferFrom conv s ts).map Row.message_id = List.range' s ts.length := by
  induction ts generalizing s with
  | nil => rfl
  | cons p ts ih =>
    obtain ⟨r, c⟩ := p
    simp [mkBufferFrom, ih (s + 1), List.range'_succ]

theorem save_message_to_db_buffer (db : Store) (conv : String) (ts : List Msg)
    (hdb : rowsFor db conv = []) (role content : String) :
    save_message_to_db (db ++ mkBuffer conv ts) conv role content =
      db ++ mkBuffer conv (ts ++ [(role, content)]) := by
  unfold save_message_to_db mkBuffer
  rw [rowsFor_append, hdb, List.nil_append, rowsFor_mkBufferFrom, mkBufferFrom_append]
  cases ts with
  | nil =>
    simp [mkBufferFrom, maxOfIds]
  | cons p ts2 =>
    rw [maxOfIds_mkBufferFrom_cons]
    simp only [mkBufferFrom, List.length_cons, List.append_assoc]
    congr 3

theorem count_buffer (db : Store) (conv : String) (ts : List Msg)
    (hdb : rowsFor db conv = []) :
    get_conversation_message_count (db ++ mkBuffer conv ts) conv = ts.length := by
  unfold get_conversation_message_count mkBuffer
  rw [rowsFor_append, hdb, List.nil_append, rowsFor_mkBufferFrom, length_mkBufferFrom]

theorem load_buffer (db : Store) (conv : String) (ts : List Msg)
    (hdb : rowsFor db conv = []) :
    load_conversation_messages (db ++ mkBuffer conv ts) conv = ts := by
  unfold load_conversation_messages mkBuffer
  rw [rowsFor_append, hdb, List.nil_append, rowsFor_mkBufferFrom, sortById_mkBufferFrom,
    map_mkBufferFrom]

theorem clear_buffer (db : Store) (conv : String) (ts : List Msg)
    (hdb : rowsFor db conv = []) :
    clear_conversation_cache (db ++ mkBuffer conv ts) conv = db := by
  unfold clear_conversation_cache mkBuffer
  rw [List.filter_append, filterNe_mkBufferFrom, List.append_nil]
  have h := clear_eq_self_of_rowsFor_nil db conv hdb
  unfold clear_conversation_cache at h
  exact h

theorem rowsFor_clear (db : Store) (conv : String) :
    rowsFor (clear_conversation_cache db conv) conv = [] := by
  unfold rowsFor clear_conversation_cache
  rw [List.filter_eq_nil_iff]
  intro r hr
  rw [List.mem_filter] at hr
  simp only [Bool.not_eq_true'] at hr
  simp [hr.2]

theorem save_memories_eq_general (t : Nat) (ht : t ≠ 1) (db : Store) (conv u a : String) :
    save_memories t db conv u a = save_memories_general t db conv u a := by
  by_cases hu : u = "" <;> by_cases ha : a = "" <;>
    simp [save_memories, save_memories_general, hu, ha, ht]

theorem save_memories_general_buffer_step (t : Nat) (db : Store) (conv : String)
    (ts : List Msg) (hdb : rowsFor db conv = []) (u a : String)
    (hu : u ≠ "") (ha : a ≠ "") :
    save_memories_general t (db ++ mkBuffer conv ts) conv u a =
      if t ≤ (ts.length + 2) / 2 then
        (db, some (ts ++ [("user", u), ("assistant", a)]))
      else
        (db ++ mkBuffer conv (ts ++ [("user", u), ("assistant", a)]), none) := by
  have h1 := save_message_to_db_buffer db conv ts hdb "user" u
  have h2 := save_message_to_db_buffer db conv (ts ++ [("user", u)]) hdb "assistant" a
  have hts : (ts ++ [("user", u)]) ++ [("assistant", a)] = ts ++ [("user", u), ("assistant", a)] := by
    simp
  rw [hts] at h2
  unfold save_memories_general
  rw [if_neg hu, if_neg ha]
  simp only [h1, h2, count_buffer db conv _ hdb, load_buffer db conv _ hdb,
    clear_buffer db conv _ hdb]
  have hlen : (ts ++ [("user", u), ("assistant", a)]).length = ts.length + 2 := by
    simp
  rw [hlen]

theorem save_memories_buffer_step (t : Nat) (ht : t ≠ 1) (db : Store) (conv : String)
    (ts : List Msg) (hdb : rowsFor db conv = []) (u a : String)
    (hu : u ≠ "") (ha : a ≠ "") :
    save_memories t (db ++ mkBuffer conv ts) conv u a =
      if t ≤ (ts.length + 2) / 2 then
        (db, some (ts ++ [("user", u), ("assistant", a)]))
      else
        (db ++ mkBuffer conv (ts ++ [("user", u), ("assistant", a)]), none) := by
  rw [save_memories_eq_general t ht, save_memories_general_buffer_step t db conv ts hdb u a hu ha]

/-! Round-level model of the buffering policy and its refinement -/

theorem processRounds_cons (t : Nat) (conv : String) (db : Store) (r : Round) (rs : List Round) :
    processRounds t conv db (r :: rs) =
      ((processRounds t conv (save_memories t db conv r.1 r.2).1 rs).1,
       (save_memories t db conv r.1 r.2).2.toList ++
         (processRounds t conv (save_memories t db conv r.1 r.2).1 rs).2) := rfl

theorem runModel_cons_flush (t : Nat) (b : List Round) (r : Round) (rs : List Round)
    (hf : t ≤ b.length + 1) :
    runModel t b (r :: rs) = ((runModel t [] rs).1, (b ++ [r]) :: (runModel t [] rs).2) := by
  simp only [runModel]
  rw [if_pos (by simp; omega)]

theorem runModel_cons_acc (t : Nat) (b : List Round) (r : Round) (rs : List Round)
    (hf : ¬ t ≤ b.length + 1) :
    runModel t b (r :: rs) = runModel t (b ++ [r]) rs := by
  simp only [runModel]
  rw [if_neg (by simp; omega)]

theorem runModel_length (t : Nat) (rs : List Round) :
    ∀ b : List Round, b.length < t →
      ((runModel t b rs).2).length = (b.length + rs.length) / t := by
  induction rs with
  | nil =>
    intro b hb
    simp [runModel, Nat.div_eq_of_lt hb]
  | cons r rs ih =>
    intro b hb
    simp only [List.length_cons]
    by_cases hf : t ≤ b.length + 1
    · rw [runModel_cons_flush t b r rs hf]
      simp only [List.length_cons]
      rw [ih [] (by simp; omega)]
      have hnum : b.length + (rs.length + 1) = rs.length + t := by omega
      rw [hnum, Nat.add_div_right _ (by omega)]
      simp
    · rw [runModel_cons_acc t b r rs hf]
      rw [ih (b ++ [r]) (by simp; omega)]
      have hnum : (b ++ [r]).length + rs.length = b.length + (rs.length + 1) := by
        simp
        omega
      rw [hnum]

theorem runModel_batch_len (t : Nat) (rs : List Round) :
    ∀ b : List Round, b.length < t →
      ∀ x ∈ (runModel t b rs).2, x.length = t := by
  induction rs with
  | nil =>
    intro b hb x hx
    simp [runModel] at hx
  | cons r rs ih =>
    intro b hb x hx
    by_cases hf : t ≤ b.length + 1
    · rw [runModel_cons_flush t b r rs hf] at hx
      simp only [List.mem_cons] at hx
      rcases hx with hx | hx
      · subst hx
        simp
        omega
      · exact ih [] (by simp; omega) x hx
    · rw [runModel_cons_acc t b r rs hf] at hx
      exact ih (b ++ [r]) (by simp; omega) x hx

theorem runModel_join (t : Nat) (rs : List Round) :
    ∀ b : List Round, b.length < t →
      ((runModel t b rs).2).flatten ++ (runModel t b rs).1 = b ++ rs := by
  induction rs with
  | nil =>
    intro b hb
    simp [runModel]
  | cons r rs ih =>
    intro b hb
    by_cases hf : t ≤ b.length + 1
    · rw [runModel_cons_flush t b r rs hf]
      simp only [List.flatten_cons, List.append_assoc]
      rw [ih [] (by simp; omega)]
      simp
    · rw [runModel_cons_acc t b r rs hf]
      rw [ih (b ++ [r]) (by simp; omega)]
      simp

theorem flatRounds_append (xs ys : List Round) :
    flatRounds (xs ++ ys) = flatRounds xs ++ flatRounds ys := by
  unfold flatRounds
  rw [List.map_append, List.flatten_append]

theorem flatRounds_length (xs : List Round) : (flatRounds xs).length = 2 * xs.length := by
  induction xs with
  | nil => rfl
  | cons x xs ih =>
    have hcons : flatRounds (x :: xs) = roundMsgs x ++ flatRounds xs := rfl
    rw [hcons]
    simp only [List.length_append, roundMsgs, List.length_cons, List.length_nil, ih,
      List.length_cons]
    omega

theorem flatRounds_flatten (L : List (List Round)) :
    (L.map flatRounds).flatten = flatRounds L.flatten := by
  induction L with
  | nil => rfl
  | cons x L ih =>
    simp only [List.map_cons, List.flatten_cons, ih, flatRounds_append]

theorem flatten_length_of_uniform (t : Nat) (L : List (List Round))
    (h : ∀ x ∈ L, x.length = t) : L.flatten.length = L.length * t := by
  induction L with
  | nil => simp
  | cons x L ih =>
    simp only [List.flatten_cons, List.length_append, List.length_cons]
    rw [h x (by simp), ih (fun y hy => h y (by simp [hy]))]
    ring

theorem processRounds_one (conv : String) (rs : List Round) :
    ∀ db : Store, (∀ r ∈ rs, r.1 ≠ "" ∧ r.2 ≠ "") →
      processRounds 1 conv db rs = (db, rs.map roundMsgs) := by
  induction rs with
  | nil =>
    intro db _
    rfl
  | cons r rs ih =>
    intro db h
    have hr := h r (List.mem_cons_self r rs)
    have hs : save_memories 1 db conv r.1 r.2 = (db, some [("user", r.1), ("assistant", r.2)]) := by
      unfold save_memories
      rw [if_neg hr.1, if_neg hr.2, if_pos rfl]
    rw [processRounds_cons, hs]
    rw [ih db (fun x hx => h x (List.mem_cons_of_mem r hx))]
    simp [roundMsgs]

theorem processRounds_buffer (t : Nat) (ht : 2 ≤ t) (conv : String) (rs : List Round) :
    ∀ b : List Round, b.length < t → (∀ r ∈ rs, r.1 ≠ "" ∧ r.2 ≠ "") →
      processRounds t conv (mkBuffer conv (flatRounds b)) rs =
        (mkBuffer conv (flatRounds (runModel t b rs).1),
         ((runModel t b rs).2).map flatRounds) := by
  induction rs with
  | nil =>
    intro b hb hne
    rfl
  | cons r rs ih =>
    intro b hb hne
    have hr := hne r (List.mem_cons_self r rs)
    have hne2 : ∀ x ∈ rs, x.1 ≠ "" ∧ x.2 ≠ "" :=
      fun x hx => hne x (List.mem_cons_of_mem r hx)
    have hstep := save_memories_buffer_step t (by omega) [] conv (flatRounds b) rfl r.1 r.2 hr.1 hr.2
    rw [List.nil_append] at hstep
    have hc : ((flatRounds b).length + 2) / 2 = b.length + 1 := by
      rw [flatRounds_length]
      omega
    rw [hc] at hstep
    have hflat : flatRounds b ++ [("user", r.1), ("assistant", r.2)] = flatRounds (b ++ [r]) := by
      rw [flatRounds_append]
      rfl
    rw [hflat] at hstep
    by_cases hf : t ≤ b.length + 1
    · rw [if_pos hf] at hstep
      have hih := ih [] (by simp; omega) hne2
      have hnb : mkBuffer conv (flatRounds ([] : List Round)) = [] := rfl
      rw [hnb] at hih
      rw [processRounds_cons, hstep, runModel_cons_flush t b r rs hf]
      simp [hih, Option.toList]
    · rw [if_neg hf] at hstep
      rw [List.nil_append] at hstep
      have hih := ih (b ++ [r]) (by simp; omega) hne2
      rw [processRounds_cons, hstep, runModel_cons_acc t b r rs hf]
      simp [hih, Option.toList]

/-! Claim theorems, one per claim, with witnesses where hypotheses occur -/

/-- C1: for every configured threshold `t ≥ 1` and every sequence of completed
rounds with non-empty user and assistant sides, processing the rounds in order
for one conversation starting from an empty store produces exactly `⌊n/t⌋`
uploaded batches; each batch holds exactly `t` rounds (`2t` turns), and the
batches concatenated in order are exactly the turns of the first `⌊n/t⌋ · t` rounds
in original append order. -/
theorem c1_threshold_batching (t : Nat) (conv : String) (rs : List Round)
    (ht : 1 ≤ t) (hne : ∀ r ∈ rs, r.1 ≠ "" ∧ r.2 ≠ "") :
    ((processRounds t conv [] rs).2).length = rs.length / t ∧
    (∀ batch ∈ (processRounds t conv [] rs).2, batch.length = 2 * t) ∧
    ((processRounds t conv [] rs).2).flatten = flatRounds (rs.take (rs.length / t * t)) := by
  by_cases h1 : t = 1
  · subst h1
    rw [processRounds_one conv rs [] hne]
    refine ⟨by simp, ?_, ?_⟩
    · intro batch hb
      simp only [List.mem_map] at hb
      obtain ⟨r, _, hr⟩ := hb
      subst hr
      simp [roundMsgs]
    · simp [flatRounds, Nat.div_one, Nat.mul_one, List.take_length]
  · have ht2 : 2 ≤ t := by omega
    have hP := processRounds_buffer t ht2 conv rs [] (by simp; omega) hne
    have hnb : mkBuffer conv (flatRounds ([] : List Round)) = [] := rfl
    rw [hnb] at hP
    rw [hP]
    have hlen := runModel_length t rs [] (by simp; omega)
    have hbl := runModel_batch_len t rs [] (by simp; omega)
    have hjoin := runModel_join t rs [] (by simp; omega)
    simp only [List.length_nil, Nat.zero_add, List.nil_append] at hlen hjoin
    refine ⟨by simp [hlen], ?_, ?_⟩
    · intro batch hb
      simp only [List.mem_map] at hb
      obtain ⟨x, hx, hxb⟩ := hb
      subst hxb
      rw [flatRounds_length, hbl x hx]
    · rw [flatRounds_flatten]
      congr 1
      have hflen : ((runModel t [] rs).2).flatten.length = rs.length / t * t := by
        rw [flatten_length_of_uniform t _ hbl, hlen]
      calc ((runModel t [] rs).2).flatten
          = (((runModel t [] rs).2).flatten ++ (runModel t [] rs).1).take
              ((runModel t [] rs).2).flatten.length := (List.take_left _ _).symm
        _ = rs.take (rs.length / t * t) := by rw [hjoin, hflen]

/-- Witness for C1: threshold 2 with two concrete non-empty rounds. -/
theorem c1_threshold_batching_witness :
    ((processRounds 2 "c1" [] [("hi", "hello"), ("bye", "goodbye")]).2).length =
      [("hi", "hello"), ("bye", "goodbye")].length / 2 ∧
    (∀ batch ∈ (processRounds 2 "c1" [] [("hi", "hello"), ("bye", "goodbye")]).2,
      batch.length = 2 * 2) ∧
    ((processRounds 2 "c1" [] [("hi", "hello"), ("bye", "goodbye")]).2).flatten =
      flatRounds ([("hi", "hello"), ("bye", "goodbye")].take
        ([("hi", "hello"), ("bye", "goodbye")].length / 2 * 2)) :=
  c1_threshold_batching 2 "c1" [("hi", "hello"), ("bye", "goodbye")] (by omega) (by decide)

theorem appendTurns_buffer (db : Store) (conv : String) (hdb : rowsFor db conv = []) :
    ∀ ts ts0 : List Msg,
      appendTurns (db ++ mkBuffer conv ts0) conv ts = db ++ mkBuffer conv (ts0 ++ ts) := by
  intro ts
  induction ts with
  | nil =>
    intro ts0
    simp [appendTurns]
  | cons p ts ih =>
    intro ts0
    obtain ⟨r, c⟩ := p
    have hstep : appendTurns (db ++ mkBuffer conv ts0) conv ((r, c) :: ts) =
        appendTurns (save_message_to_db (db ++ mkBuffer conv ts0) conv r c) conv ts := rfl
    rw [hstep, save_message_to_db_buffer db conv ts0 hdb r c, ih (ts0 ++ [(r, c)])]
    simp

theorem appendTurns_empty (conv : String) (ts : List Msg) :
    appendTurns [] conv ts = mkBuffer conv ts :=
  appendTurns_buffer [] conv rfl ts []

theorem save_message_next_id (db : Store) (conv role content : String) :
    ∃ n, save_message_to_db db conv role content = db ++ [⟨conv, n, role, content⟩] ∧
      (∀ r ∈ db, r.conversation_id = conv → r.message_id < n) ∧
      ((rowsFor db conv = [] ∧ n = 0) ∨
        ∃ r ∈ db, r.conversation_id = conv ∧ n = r.message_id + 1) := by
  cases hmax : maxOfIds (rowsFor db conv) with
  | none =>
    have hrows : rowsFor db conv = [] := (maxOfIds_eq_none _).mp hmax
    refine ⟨0, ?_, ?_, Or.inl ⟨hrows, rfl⟩⟩
    · simp only [save_message_to_db, hmax]
    · intro r hr hc
      exfalso
      have hmem : r ∈ rowsFor db conv := by
        rw [rowsFor, List.mem_filter]
        exact ⟨hr, by simp [hc]⟩
      rw [hrows] at hmem
      simp at hmem
  | some m =>
    obtain ⟨⟨r0, hr0mem, hr0id⟩, hall⟩ := maxOfIds_eq_some _ m hmax
    have hr0 : r0 ∈ db ∧ r0.conversation_id = conv := by
      rw [rowsFor, List.mem_filter] at hr0mem
      exact ⟨hr0mem.1, by simpa using hr0mem.2⟩
    refine ⟨m + 1, ?_, ?_, Or.inr ⟨r0, hr0.1, hr0.2, by omega⟩⟩
    · simp only [save_message_to_db, hmax]
    · intro r hr hc
      have hmem : r ∈ rowsFor db conv := by
        rw [rowsFor, List.mem_filter]
        exact ⟨hr, by simp [hc]⟩
      have := hall r hmem
      omega

/-- C2: the flush-time drain (ordered read then delete) returns the turns of a
conversation in exactly the order they were appended, with no reordering and
no omission, and removes them all; in particular buffering three rounds and
flushing at threshold 3 uploads exactly the six turns in append order. -/
theorem c2_drain_preserves_append_order (conv : String) (ts : List Msg)
    (u1 a1 u2 a2 u3 a3 : String) (h1 : u1 ≠ "") (h2 : a1 ≠ "") (h3 : u2 ≠ "")
    (h4 : a2 ≠ "") (h5 : u3 ≠ "") (h6 : a3 ≠ "") :
    load_conversation_messages (appendTurns [] conv ts) conv = ts ∧
    rowsFor (clear_conversation_cache (appendTurns [] conv ts) conv) conv = [] ∧
    processRounds 3 conv [] [(u1, a1), (u2, a2), (u3, a3)] =
      ([], [[("user", u1), ("assistant", a1), ("user", u2), ("assistant", a2),
             ("user", u3), ("assistant", a3)]]) := by
  refine ⟨?_, ?_, ?_⟩
  · rw [appendTurns_empty]
    have h := load_buffer [] conv ts rfl
    rw [List.nil_append] at h
    exact h
  · exact rowsFor_clear _ conv
  · have hne : ∀ r ∈ [(u1, a1), (u2, a2), (u3, a3)], r.1 ≠ "" ∧ r.2 ≠ "" := by
      intro r hr
      simp only [List.mem_cons, List.not_mem_nil, or_false] at hr
      rcases hr with h | h | h
      · subst h; exact ⟨h1, h2⟩
      · subst h; exact ⟨h3, h4⟩
      · subst h; exact ⟨h5, h6⟩
    have hP := processRounds_buffer 3 (by omega) conv [(u1, a1), (u2, a2), (u3, a3)] []
      (by simp) hne
    have hnb : mkBuffer conv (flatRounds ([] : List Round)) = [] := rfl
    rw [hnb] at hP
    rw [hP]
    rfl

/-- Witness for C2 at concrete turns and rounds. -/
theorem c2_drain_preserves_append_order_witness :
    load_conversation_messages (appendTurns [] "c" [("user", "x"), ("assistant", "y")]) "c" =
      [("user", "x"), ("assistant", "y")] ∧
    rowsFor (clear_conversation_cache
      (appendTurns [] "c" [("user", "x"), ("assistant", "y")]) "c") "c" = [] ∧
    processRounds 3 "c" [] [("m1", "r1"), ("m2", "r2"), ("m3", "r3")] =
      ([], [[("user", "m1"), ("assistant", "r1"), ("user", "m2"), ("assistant", "r2"),
             ("user", "m3"), ("assistant", "r3")]]) :=
  c2_drain_preserves_append_order "c" [("user", "x"), ("assistant", "y")]
    "m1" "r1" "m2" "r2" "m3" "r3" (by decide) (by decide) (by decide) (by decide)
    (by decide) (by decide)

/-- C3: with threshold 1 the fast path uploads exactly one two-message batch
for a completed round and leaves the store untouched, and on a store holding
no rows for the conversation the general store-backed path run with threshold
1 uploads the same batch (and also restores the store). -/
theorem c3_fast_path_matches_general (db : Store) (conv u a : String)
    (hu : u ≠ "") (ha : a ≠ "") (hdb : rowsFor db conv = []) :
    save_memories 1 db conv u a = (db, some [("user", u), ("assistant", a)]) ∧
    save_memories_general 1 db conv u a = (db, some [("user", u), ("assistant", a)]) := by
  constructor
  · unfold save_memories
    rw [if_neg hu, if_neg ha, if_pos rfl]
  · have h := save_memories_general_buffer_step 1 db conv [] hdb u a hu ha
    have hdb0 : db ++ mkBuffer conv ([] : List Msg) = db := by
      show db ++ [] = db
      simp
    rw [hdb0, if_pos (by norm_num)] at h
    rw [h]
    simp

/-- Witness for C3 on a store holding a row of another conversation. -/
theorem c3_fast_path_matches_general_witness :
    save_memories 1 [⟨"other", 0, "user", "x"⟩] "c" "hi" "hello" =
      ([⟨"other", 0, "user", "x"⟩], some [("user", "hi"), ("assistant", "hello")]) ∧
    save_memories_general 1 [⟨"other", 0, "user", "x"⟩] "c" "hi" "hello" =
      ([⟨"other", 0, "user", "x"⟩], some [("user", "hi"), ("assistant", "hello")]) :=
  c3_fast_path_matches_general [⟨"other", 0, "user", "x"⟩] "c" "hi" "hello"
    (by decide) (by decide) (by decide)

/-- C4: a completed round with an empty (missing) user message or assistant
response is discarded entirely: no store row is written, no upload is
submitted, and the store is unchanged. -/
theorem c4_partial_round_discarded (t : Nat) (db : Store) (conv u a : String)
    (h : u = "" ∨ a = "") :
    save_memories t db conv u a = (db, none) := by
  unfold save_memories
  rcases h with h | h
  · rw [if_pos h]
  · subst h
    by_cases hu : u = ""
    · rw [if_pos hu]
    · rw [if_neg hu, if_pos rfl]

/-- Witness for C4: an empty assistant response at threshold 2. -/
theorem c4_partial_round_discarded_witness :
    save_memories 2 [] "c" "hi" "" = ([], none) :=
  c4_partial_round_discarded 2 [] "c" "hi" "" (Or.inr rfl)

/-- C5: on a flush the rows of the conversation are deleted from the store before
the gateway upload is attempted (the clear event strictly precedes the gateway
call in the effect trace), and the gateway outcome does not change the store:
the drained batch is neither retried nor written back, leaving no rows for the
conversation. -/
theorem c5_clear_precedes_upload (t : Nat) (db : Store) (conv u a : String) (g : Bool)
    (hu : u ≠ "") (ha : a ≠ "") (ht : t ≠ 1)
    (hflush : t ≤ get_conversation_message_count
      (save_message_to_db (save_message_to_db db conv "user" u) conv "assistant" a) conv / 2) :
    save_memories_ev t db conv u a g =
      (clear_conversation_cache
        (save_message_to_db (save_message_to_db db conv "user" u) conv "assistant" a) conv,
       [Ev.dbAppend conv "user" u, Ev.dbAppend conv "assistant" a, Ev.dbClear conv,
        Ev.gatewayAdd (load_conversation_messages
          (save_message_to_db (save_message_to_db db conv "user" u) conv "assistant" a) conv) g]) ∧
    rowsFor (save_memories_ev t db conv u a g).1 conv = [] ∧
    (save_memories_ev t db conv u a g).1 = (save_memories_ev t db conv u a (!g)).1 := by
  have hmain : ∀ g2 : Bool, save_memories_ev t db conv u a g2 =
      (clear_conversation_cache
        (save_message_to_db (save_message_to_db db conv "user" u) conv "assistant" a) conv,
       [Ev.dbAppend conv "user" u, Ev.dbAppend conv "assistant" a, Ev.dbClear conv,
        Ev.gatewayAdd (load_conversation_messages
          (save_message_to_db (save_message_to_db db conv "user" u) conv "assistant" a) conv) g2]) := by
    intro g2
    simp only [save_memories_ev, if_neg hu, if_neg ha, if_neg ht, if_pos hflush]
  refine ⟨hmain g, ?_, ?_⟩
  · rw [hmain g]
    exact rowsFor_clear _ conv
  · rw [hmain g, hmain (!g)]

/-- Witness for C5: a flush at threshold 2 with one round already buffered and
a failing gateway. -/
theorem c5_clear_precedes_upload_witness :
    save_memories_ev 2 [⟨"c", 0, "user", "hi"⟩, ⟨"c", 1, "assistant", "hello"⟩]
        "c" "bye" "goodbye" false =
      (clear_conversation_cache
        (save_message_to_db (save_message_to_db
          [⟨"c", 0, "user", "hi"⟩, ⟨"c", 1, "assistant", "hello"⟩] "c" "user" "bye")
          "c" "assistant" "goodbye") "c",
       [Ev.dbAppend "c" "user" "bye", Ev.dbAppend "c" "assistant" "goodbye",
        Ev.dbClear "c",
        Ev.gatewayAdd (load_conversation_messages
          (save_message_to_db (save_message_to_db
            [⟨"c", 0, "user", "hi"⟩, ⟨"c", 1, "assistant", "hello"⟩] "c" "user" "bye")
            "c" "assistant" "goodbye") "c") false]) ∧
    rowsFor (save_memories_ev 2 [⟨"c", 0, "user", "hi"⟩, ⟨"c", 1, "assistant", "hello"⟩]
      "c" "bye" "goodbye" false).1 "c" = [] ∧
    (save_memories_ev 2 [⟨"c", 0, "user", "hi"⟩, ⟨"c", 1, "assistant", "hello"⟩]
      "c" "bye" "goodbye" false).1 =
    (save_memories_ev 2 [⟨"c", 0, "user", "hi"⟩, ⟨"c", 1, "assistant", "hello"⟩]
      "c" "bye" "goodbye" (!false)).1 :=
  c5_clear_precedes_upload 2 [⟨"c", 0, "user", "hi"⟩, ⟨"c", 1, "assistant", "hello"⟩]
    "c" "bye" "goodbye" false (by decide) (by decide) (by decide) (by decide)

/-- C6: every append to the store assigns as sequence number the maximum
existing `message_id` of the conversation plus one (or `0` when the
conversation has no rows), inserts the row at the end, and returns the
committed store. -/
theorem c6_append_assigns_next_id (db : Store) (conv role content : String) :
    ∃ n, save_message_to_db db conv role content = db ++ [⟨conv, n, role, content⟩] ∧
      (∀ r ∈ db, r.conversation_id = conv → r.message_id < n) ∧
      ((rowsFor db conv = [] ∧ n = 0) ∨
        ∃ r ∈ db, r.conversation_id = conv ∧ n = r.message_id + 1) :=
  save_message_next_id db conv role content

/-- C7: sequence numbers are monotonically increasing per conversation — every
append assigns a number strictly greater than all numbers previously assigned
for that conversation — and within one buffer lifetime (appends into an empty
buffer) the assigned numbers are exactly `0, 1, ..., k-1`: unique and gapless. -/
theorem c7_ids_monotone_unique_gapless (conv : String) (ts : List Msg) :
    (rowsFor (appendTurns [] conv ts) conv).map Row.message_id = List.range ts.length ∧
    ∀ (db : Store) (role content : String), ∃ n,
      save_message_to_db db conv role content = db ++ [⟨conv, n, role, content⟩] ∧
      ∀ r ∈ db, r.conversation_id = conv → r.message_id < n := by
  constructor
  · rw [appendTurns_empty]
    show (rowsFor (mkBufferFrom conv 0 ts) conv).map Row.message_id = List.range ts.length
    rw [rowsFor_mkBufferFrom, map_id_mkBufferFrom, List.range_eq_range']
  · intro db role content
    obtain ⟨n, heq, hgt, _⟩ := save_message_next_id db conv role content
    exact ⟨n, heq, hgt⟩

/-- C8: a failure inside a store operation (append, count or clear) is caught
at its boundary: the operation returns normally with the committed store
unchanged (rollback), `0`, or the unchanged store respectively, and the
fault-free pipeline coincides with the plain one — no store exception reaches
the control flow of the caller. -/
theorem c8_store_failures_contained (fail : Bool) (t : Nat) (db : Store)
    (conv role content u a : String) :
    save_message_to_db_f fail db conv role content =
      (if fail then db else save_message_to_db db conv role content) ∧
    get_conversation_message_count_f fail db conv =
      (if fail then 0 else get_conversation_message_count db conv) ∧
    clear_conversation_cache_f fail db conv =
      (if fail then db else clear_conversation_cache db conv) ∧
    save_memories_f false false false t db conv u a = save_memories t db conv u a := by
  refine ⟨?_, ?_, ?_, rfl⟩ <;> cases fail <;> rfl

/-- C9: the two sides of a round are appended in separate transactions, so
when the user-turn append commits and the assistant-turn append fails, the
buffer of the conversation keeps the unpaired user turn (an odd row count, no
upload); the half round persists and is included at the front of the batch
drained by a later flush (threshold 2, two further complete rounds). -/
theorem c9_half_round_persists (conv u1 a1 u2 a2 u3 a3 : String)
    (h1 : u1 ≠ "") (h2 : a1 ≠ "") (h3 : u2 ≠ "") (h4 : a2 ≠ "") (h5 : u3 ≠ "")
    (h6 : a3 ≠ "") :
    save_memories_f false true false 2 [] conv u1 a1 = ([⟨conv, 0, "user", u1⟩], none) ∧
    get_conversation_message_count [⟨conv, 0, "user", u1⟩] conv = 1 ∧
    save_memories 2 [⟨conv, 0, "user", u1⟩] conv u2 a2 =
      ([⟨conv, 0, "user", u1⟩, ⟨conv, 1, "user", u2⟩, ⟨conv, 2, "assistant", a2⟩], none) ∧
    save_memories 2 [⟨conv, 0, "user", u1⟩, ⟨conv, 1, "user", u2⟩,
        ⟨conv, 2, "assistant", a2⟩] conv u3 a3 =
      ([], some [("user", u1), ("user", u2), ("assistant", a2),
                 ("user", u3), ("assistant", a3)]) := by
  have hcount : get_conversation_message_count [⟨conv, 0, "user", u1⟩] conv = 1 := by
    simp [get_conversation_message_count, rowsFor]
  refine ⟨?_, hcount, ?_, ?_⟩
  · simp [save_memories_f, save_message_to_db_f, save_message_to_db_raw,
      get_conversation_message_count_f, get_conversation_message_count_raw,
      save_message_to_db, get_conversation_message_count, rowsFor, maxOfIds, h1, h2]
  · have hstep := save_memories_buffer_step 2 (by omega) [] conv [("user", u1)] rfl u2 a2 h3 h4
    rw [List.nil_append, if_neg (by norm_num)] at hstep
    exact hstep
  · have hstep := save_memories_buffer_step 2 (by omega) [] conv
      [("user", u1), ("user", u2), ("assistant", a2)] rfl u3 a3 h5 h6
    rw [List.nil_append, if_pos (by norm_num)] at hstep
    exact hstep

/-- Witness for C9 at concrete message contents. -/
theorem c9_half_round_persists_witness :
    save_memories_f false true false 2 [] "c" "q1" "r1" = ([⟨"c", 0, "user", "q1"⟩], none) ∧
    get_conversation_message_count [⟨"c", 0, "user", "q1"⟩] "c" = 1 ∧
    save_memories 2 [⟨"c", 0, "user", "q1"⟩] "c" "q2" "r2" =
      ([⟨"c", 0, "user", "q1"⟩, ⟨"c", 1, "user", "q2"⟩, ⟨"c", 2, "assistant", "r2"⟩], none) ∧
    save_memories 2 [⟨"c", 0, "user", "q1"⟩, ⟨"c", 1, "user", "q2"⟩,
        ⟨"c", 2, "assistant", "r2"⟩] "c" "q3" "r3" =
      ([], some [("user", "q1"), ("user", "q2"), ("assistant", "r2"),
                 ("user", "q3"), ("assistant", "r3")]) :=
  c9_half_round_persists "c" "q1" "r1" "q2" "r2" "q3" "r3"
    (by decide) (by decide) (by decide) (by decide) (by decide) (by decide)

/-- C10: when the count query fails it returns 0, so the event computes 0
buffered rounds, which is below any threshold `t ≥ 2`; the two appended turns
stay in the store and no flush or upload happens on that event. -/
theorem c10_count_failure_suppresses_flush (t : Nat) (db : Store) (conv u a : String)
    (ht : 2 ≤ t) (hu : u ≠ "") (ha : a ≠ "") :
    save_memories_f false false true t db conv u a =
      (save_message_to_db (save_message_to_db db conv "user" u) conv "assistant" a, none) := by
  have ht1 : t ≠ 1 := by omega
  have ht0 : t ≠ 0 := by omega
  have hle : ¬ t ≤ 0 := by omega
  simp [save_memories_f, save_message_to_db_f, save_message_to_db_raw,
    get_conversation_message_count_f, get_conversation_message_count_raw, hu, ha,
    ht1, ht0, hle]

/-- Witness for C10: a count failure at threshold 2 with rows that would have
reached the threshold. -/
theorem c10_count_failure_suppresses_flush_witness :
    save_memories_f false false true 2 [⟨"c", 0, "user", "hi"⟩, ⟨"c", 1, "assistant", "hello"⟩]
        "c" "bye" "goodbye" =
      (save_message_to_db (save_message_to_db
        [⟨"c", 0, "user", "hi"⟩, ⟨"c", 1, "assistant", "hello"⟩] "c" "user" "bye")
        "c" "assistant" "goodbye", none) :=
  c10_count_failure_suppresses_flush 2
    [⟨"c", 0, "user", "hi"⟩, ⟨"c", 1, "assistant", "hello"⟩] "c" "bye" "goodbye"
    (by omega) (by decide) (by decide)
